import Mathlib

/-!
Verification of the privacy-eraser exposure/removal-request workflow and of the
frontend client logic.

The repository's source under `src/` contains the Next.js frontend (pages and
the fetch-based `ApiClient` in `src/frontend/src/lib/api.ts`) together with a
README and a Stripe setup script.  The FastAPI backend that implements the
workflow endpoints (`POST /requests`, `/requests/{id}/submit`,
`/requests/{id}/complete`, `/brokers/scan`, `/monitoring/alerts/{id}/read`) is
referenced by the client but its code is not part of `src/`; those operations
are therefore modelled from the specification (each such definition is marked
`Modelled from the spec:`).  Frontend logic (the reset-password form guard, the
API client's 401 handling, the dashboard's fetch error handler) is translated
directly from the TypeScript source.
-/

namespace PrivacyEraser

/-- Exposure lifecycle states (spec §3, and the dashboard's status badges). -/
inductive ExposureStatus where
  | found
  | pending_removal
  | removed
  deriving DecidableEq

/-- RemovalRequest lifecycle states (spec §3, and the requests page badges). -/
inductive RequestStatus where
  | pending
  | submitted
  | completed
  | failed
  deriving DecidableEq

/-- Removal request types (spec §3, requests page labels). -/
inductive RequestType where
  | opt_out
  | gdpr_delete
  | ccpa_delete
  deriving DecidableEq

/-- Error taxonomy of spec §7. -/
inductive ApiError where
  | NotFound
  | Conflict
  | InvalidState
  | PreconditionFailed
  | Unauthorized
  deriving DecidableEq

/-- Broker catalog entry (spec §3): opt-out metadata and processing duration. -/
structure Broker where
  id : Nat
  opt_out_url : Option String
  opt_out_instructions : Option String
  requires_manual_action : Bool
  processing_days : Nat
  deriving DecidableEq

/-- An exposure row (spec §3): a finding that a user's data appears on a broker. -/
structure Exposure where
  id : Nat
  user_id : Nat
  broker_id : Nat
  status : ExposureStatus
  profile_url : Option String
  first_detected_at : Nat
  deriving DecidableEq

/-- A removal request row (spec §3 and the `Request` interface of
`src/frontend/src/app/dashboard/requests/page.tsx`). -/
structure RemovalRequest where
  id : Nat
  user_id : Nat
  broker_id : Nat
  exposure_id : Option Nat
  request_type : RequestType
  status : RequestStatus
  submitted_at : Option Nat
  expected_completion : Option Nat
  completed_at : Option Nat
  opt_out_url : Option String
  instructions : Option String
  requires_user_action : Bool
  created_at : Nat
  deriving DecidableEq

/-- An alert row (spec §3 and the `Alert` interface of the alerts page). -/
structure Alert where
  id : Nat
  user_id : Nat
  is_read : Bool
  read_at : Option Nat
  deriving DecidableEq

/-- The scan-relevant part of a profile (spec §3; the dashboard's
`UserProfile` interface carries exactly `first_name` and `last_name`). -/
structure Profile where
  user_id : Nat
  first_name : Option String
  last_name : Option String
  deriving DecidableEq

/-- The relational store (spec §2/§3), with a counter for fresh row ids. -/
structure DB where
  exposures : List Exposure
  requests : List RemovalRequest
  brokers : List Broker
  alerts : List Alert
  profiles : List Profile
  next_id : Nat
  deriving DecidableEq

/-- A request is non-terminal when it is neither completed nor failed (spec §3:
"At most one active (non-failed, non-completed) request"). -/
def nonTerminal (r : RemovalRequest) : Bool :=
  !(r.status == RequestStatus.completed) && !(r.status == RequestStatus.failed)

/-- `r` references the exposure with id `eid`. -/
def refsExposure (r : RemovalRequest) (eid : Nat) : Bool :=
  r.exposure_id == some eid

/-- JavaScript truthiness of a nullable string (`!!s`): `null` and the empty
string are falsy.  Used by the dashboard's `profileComplete` check and by the
reset form's `if (!token)` guard. -/
def hasName : Option String → Bool
  | none => false
  | some s => !(s == "")

/-- Marks the exposure with id `eid` as `pending_removal`. -/
def pendExp (eid : Nat) (e : Exposure) : Exposure :=
  if e.id == eid then { e with status := ExposureStatus.pending_removal } else e

/-- Marks the exposure with id `eid` as `removed`. -/
def removeExp (eid : Nat) (e : Exposure) : Exposure :=
  if e.id == eid then { e with status := ExposureStatus.removed } else e

/-- Stamps the request with id `rid` as `submitted` at `now`, with expected
completion `now` plus the broker's processing days `pd`. -/
def submitStamp (rid now pd : Nat) (x : RemovalRequest) : RemovalRequest :=
  if x.id == rid then
    { x with status := RequestStatus.submitted,
             submitted_at := some now,
             expected_completion := some (now + pd) }
  else x

/-- Stamps the request with id `rid` as `completed` at `now`. -/
def completeStamp (rid now : Nat) (x : RemovalRequest) : RemovalRequest :=
  if x.id == rid then
    { x with status := RequestStatus.completed, completed_at := some now }
  else x

/-- Modelled from the spec: `createRequest(userId, exposureId, requestType)`
(spec §4.1), the handler behind `POST /requests`; the backend implementation is
not in `src/`.  Fails with NotFound if the exposure does not belong to the
user; fails with Conflict if a non-terminal request already exists for that
exposure; otherwise creates a RemovalRequest in status `pending`, copies the
broker's opt-out metadata onto it, and advances the exposure to
`pending_removal`. -/
def createRequest (db : DB) (userId exposureId : Nat) (rt : RequestType)
    (now : Nat) : Except ApiError DB :=
  match db.exposures.find? (fun e => e.id == exposureId && e.user_id == userId) with
  | none => Except.error ApiError.NotFound
  | some e =>
    if db.requests.any (fun r => refsExposure r exposureId && nonTerminal r) then
      Except.error ApiError.Conflict
    else
      match db.brokers.find? (fun b => b.id == e.broker_id) with
      | none => Except.error ApiError.NotFound
      | some b =>
        let req : RemovalRequest :=
          { id := db.next_id, user_id := userId, broker_id := e.broker_id,
            exposure_id := some exposureId, request_type := rt,
            status := RequestStatus.pending, submitted_at := none,
            expected_completion := none, completed_at := none,
            opt_out_url := b.opt_out_url, instructions := b.opt_out_instructions,
            requires_user_action := b.requires_manual_action, created_at := now }
        Except.ok
          { db with
            requests := db.requests ++ [req],
            exposures := db.exposures.map (pendExp exposureId),
            next_id := db.next_id + 1 }

/-- Modelled from the spec: `submitRequest(requestId)` (spec §4.1), the handler
behind `POST /requests/{id}/submit`; the backend implementation is not in
`src/`.  Valid only from status `pending`; sets status `submitted`, stamps the
submission time, and computes `expected_completion` as submission time plus the
broker's configured processing-days; fails with InvalidState otherwise. -/
def submitRequest (db : DB) (requestId now : Nat) : Except ApiError DB :=
  match db.requests.find? (fun r => r.id == requestId) with
  | none => Except.error ApiError.NotFound
  | some r =>
    if r.status == RequestStatus.pending then
      match db.brokers.find? (fun b => b.id == r.broker_id) with
      | none => Except.error ApiError.NotFound
      | some b =>
        Except.ok
          { db with requests := db.requests.map (submitStamp requestId now b.processing_days) }
    else Except.error ApiError.InvalidState

/-- Modelled from the spec: `completeRequest(requestId)` (spec §4.1), the
handler behind `POST /requests/{id}/complete`; the backend implementation is
not in `src/`.  Valid only from `submitted` (or `pending`, to tolerate manual
fast-completion); sets status `completed`, stamps the completion time, and
advances the linked exposure to `removed`; fails with InvalidState if already
`completed` or `failed`. -/
def completeRequest (db : DB) (requestId now : Nat) : Except ApiError DB :=
  match db.requests.find? (fun r => r.id == requestId) with
  | none => Except.error ApiError.NotFound
  | some r =>
    if r.status == RequestStatus.pending || r.status == RequestStatus.submitted then
      Except.ok
        { db with
          requests := db.requests.map (completeStamp requestId now),
          exposures :=
            match r.exposure_id with
            | none => db.exposures
            | some eid => db.exposures.map (removeExp eid) }
    else Except.error ApiError.InvalidState

/-- One scan finding from the (external) broker-matching collaborator:
a `(Broker, profile_url)` tuple (spec §4.2). -/
structure Finding where
  broker_id : Nat
  profile_url : Option String
  deriving DecidableEq

/-- Inserts one finding as an exposure, deduplicated against existing
non-`removed` exposures for the same user/broker pair (spec §4.2). -/
def scanStep (userId now : Nat) (db : DB) (f : Finding) : DB :=
  if db.exposures.any (fun e =>
      e.user_id == userId && e.broker_id == f.broker_id && !(e.status == ExposureStatus.removed)) then
    db
  else
    { db with
      exposures := db.exposures ++
        [{ id := db.next_id, user_id := userId, broker_id := f.broker_id,
           status := ExposureStatus.found, profile_url := f.profile_url,
           first_detected_at := now }],
      next_id := db.next_id + 1 }

/-- Modelled from the spec: the scan trigger (spec §4.2), the handler behind
`POST /brokers/scan`; the backend implementation is not in `src/`.  Requires a
minimally complete profile (first and last name at least, matching the
dashboard's `!!first_name && !!last_name` check); fails with PreconditionFailed
if the profile lacks a name, otherwise inserts the findings as `found`
exposures, deduplicated against non-`removed` exposures per user/broker. -/
def scan (db : DB) (userId : Nat) (findings : List Finding) (now : Nat) :
    Except ApiError DB :=
  match db.profiles.find? (fun p => p.user_id == userId) with
  | none => Except.error ApiError.PreconditionFailed
  | some p =>
    if hasName p.first_name && hasName p.last_name then
      Except.ok (findings.foldl (scanStep userId now) db)
    else Except.error ApiError.PreconditionFailed

/-- Sets the read flag and read timestamp on the alert with id `aid`. -/
def readStamp (aid now : Nat) (a : Alert) : Alert :=
  if a.id == aid then { a with is_read := true, read_at := some now } else a

/-- Modelled from the spec: mark-one-read over Alert rows (spec §4.3), the
handler behind `POST /monitoring/alerts/{id}/read`; the backend implementation
is not in `src/`.  Pure CRUD: sets `is_read` and the read timestamp. -/
def markAlertRead (db : DB) (userId alertId now : Nat) : Except ApiError DB :=
  match db.alerts.find? (fun a => a.id == alertId && a.user_id == userId) with
  | none => Except.error ApiError.NotFound
  | some _ =>
    Except.ok { db with alerts := db.alerts.map (readStamp alertId now) }

/-- The state the caller observes after an operation: the new store on
success, the unchanged store on error (errors propagate as structured
messages, spec §7, and commit nothing). -/
def runResult (db : DB) : Except ApiError DB → DB
  | Except.ok db2 => db2
  | Except.error _ => db

/-- True on `Except.ok`. -/
def isOk : Except ApiError DB → Bool
  | Except.ok _ => true
  | Except.error _ => false

/-! ## Frontend client logic, translated from the TypeScript source -/

/-- Leading match of a character pattern against a character list. -/
def leadMatch : List Char → List Char → Bool
  | [], _ => true
  | _ :: _, [] => false
  | p :: ps, c :: cs => p == c && leadMatch ps cs

/-- Substring search over character lists. -/
def subSearch (pat : List Char) : List Char → Bool
  | [] => leadMatch pat []
  | c :: cs => leadMatch pat (c :: cs) || subSearch pat cs

/-- JavaScript `s.includes(pat)`, as used by `err.message?.includes(...)`. -/
def strIncludes (s pat : String) : Bool := subSearch pat.toList s.toList

/-- The client-side state relevant to authentication: the token stored by
`ApiClient.setToken` in local storage, and the current route. -/
structure ClientState where
  token : Option String
  route : String
  deriving DecidableEq

/-- `ApiClient.clearToken` (src/frontend/src/lib/api.ts): drops the stored
token.  In the source it is reached only from `ApiClient.logout`. -/
def clearToken (st : ClientState) : ClientState := { st with token := none }

/-- HTTP `response.ok`: status in `[200, 300)`. -/
def respOk (status : Nat) : Bool := 200 ≤ status && status < 300

/-- The error path of `ApiClient.fetch` (src/frontend/src/lib/api.ts): on a
non-ok response the client throws `Error(detail)`.  No path of `fetch`
modifies the stored token. -/
def apiFetchResult (status : Nat) (detail : String) : Except String Unit :=
  if respOk status then Except.ok () else Except.error detail

/-- The catch handler of the dashboard's `fetchData`
(src/frontend/src/app/dashboard/page.tsx, also src/unnamed/part_003): when the
thrown message contains `'401'` or `'Unauthorized'` it redirects to the login
page, otherwise it shows an error banner; it never touches the stored token. -/
def dashboardCatch (st : ClientState) (msg : String) : ClientState :=
  if strIncludes msg "401" || strIncludes msg "Unauthorized" then
    { st with route := "/auth/login" }
  else st

/-- One dashboard data-fetch round against a response with the given status
and error detail: `ApiClient.fetch` composed with `fetchData`'s catch. -/
def dashboardFetchData (st : ClientState) (status : Nat) (detail : String) :
    ClientState :=
  match apiFetchResult status detail with
  | Except.ok _ => st
  | Except.error msg => dashboardCatch st msg

/-- Outcome of the reset form's submit handler: either a locally shown error
message, or a call to the reset-password API with the token and password. -/
inductive ResetAction where
  | showError (msg : String)
  | callReset (token : String) (password : String)
  deriving DecidableEq

/-- `ResetPasswordContent.handleSubmit` (src/unnamed/part_004): validates the
two password fields and the URL token before invoking `api.resetPassword`.
The token check is JavaScript truthiness (`if (!token)`), so both a missing
and an empty token are rejected. -/
def resetHandleSubmit (password confirmPassword : String)
    (token : Option String) : ResetAction :=
  if !(password == confirmPassword) then
    ResetAction.showError "Passwords do not match"
  else if password.length < 8 then
    ResetAction.showError "Password must be at least 8 characters"
  else
    match token with
    | none => ResetAction.showError "Invalid reset link"
    | some t =>
      if t == "" then ResetAction.showError "Invalid reset link"
      else ResetAction.callReset t password

/-- True when the submit handler reaches the `api.resetPassword` call. -/
def ResetAction.isCall : ResetAction → Bool
  | ResetAction.showError _ => false
  | ResetAction.callReset _ _ => true

/-! ## Store invariants -/

/-- The exposure/request coupling exactly as spec §8 states it: an exposure is
`pending_removal` iff a non-terminal request references it, and `removed` iff
a completed request references it. -/
@[reducible] def claimedExposureInv (db : DB) : Prop :=
  ∀ e ∈ db.exposures,
    (e.status = ExposureStatus.pending_removal ↔
      ∃ r ∈ db.requests, refsExposure r e.id = true ∧ nonTerminal r = true) ∧
    (e.status = ExposureStatus.removed ↔
      ∃ r ∈ db.requests, refsExposure r e.id = true ∧ r.status = RequestStatus.completed)

/-- The exposure/request coupling the workflow actually maintains: the
`removed` clause additionally requires that no non-terminal request
references the exposure (creating a fresh request after a completed removal
moves the exposure back to `pending_removal` while the old completed request
row remains). -/
@[reducible] def exposureReqInv (db : DB) : Prop :=
  ∀ e ∈ db.exposures,
    (e.status = ExposureStatus.pending_removal ↔
      ∃ r ∈ db.requests, refsExposure r e.id = true ∧ nonTerminal r = true) ∧
    (e.status = ExposureStatus.removed ↔
      ((∃ r ∈ db.requests, refsExposure r e.id = true ∧
          r.status = RequestStatus.completed) ∧
        ¬∃ r ∈ db.requests, refsExposure r e.id = true ∧ nonTerminal r = true))

/-- At most one active (non-terminal) request per exposure (spec §3). -/
@[reducible] def atMostOneActive (db : DB) : Prop :=
  ∀ e ∈ db.exposures,
    db.requests.countP (fun r => refsExposure r e.id && nonTerminal r) ≤ 1

/-- Request row ids are pairwise distinct (UUID primary keys, spec §6). -/
@[reducible] def reqIdsNodup (db : DB) : Prop := (db.requests.map (fun r => r.id)).Nodup

/-- `none`, or `some k` with `k < n`. -/
def optBelow : Option Nat → Nat → Bool
  | none, _ => true
  | some k, n => Nat.blt k n

/-- All row ids, and all exposure references held by requests, are below the
fresh-id counter. -/
@[reducible] def idsFresh (db : DB) : Prop :=
  (∀ e ∈ db.exposures, e.id < db.next_id) ∧
  (∀ r ∈ db.requests, r.id < db.next_id) ∧
  (∀ r ∈ db.requests, optBelow r.exposure_id db.next_id = true)

/-- The workflow's full store invariant. -/
@[reducible] def Inv (db : DB) : Prop :=
  exposureReqInv db ∧ atMostOneActive db ∧ reqIdsNodup db ∧ idsFresh db

/-! ## Theorems -/

/-- C10: the password-reset form invokes the reset-password API only when the
two entered passwords agree, the password has at least 8 characters, and a
reset token is present in the URL; in every other case it shows an error
message locally and sends no request. -/
theorem reset_password_guard (pw cpw : String) (tok : Option String) :
    ((resetHandleSubmit pw cpw tok).isCall = true →
      pw = cpw ∧ 8 ≤ pw.length ∧ tok.isSome = true) ∧
    (¬(pw = cpw ∧ 8 ≤ pw.length ∧ tok.isSome = true) →
      ∃ msg, resetHandleSubmit pw cpw tok = ResetAction.showError msg) := by
  constructor
  · intro hc
    by_cases h1 : pw = cpw
    · subst h1
      by_cases h2 : pw.length < 8
      · simp [resetHandleSubmit, h2, ResetAction.isCall] at hc
      · cases tok with
        | none => simp [resetHandleSubmit, h2, ResetAction.isCall] at hc
        | some t => exact ⟨rfl, Nat.le_of_not_lt h2, rfl⟩
    · simp [resetHandleSubmit, h1, ResetAction.isCall] at hc
  · intro hn
    by_cases h1 : pw = cpw
    · subst h1
      by_cases h2 : pw.length < 8
      · exact ⟨"Password must be at least 8 characters", by simp [resetHandleSubmit, h2]⟩
      · cases tok with
        | none => exact ⟨"Invalid reset link", by simp [resetHandleSubmit, h2]⟩
        | some t =>
          by_cases h3 : t = ""
          · exact ⟨"Invalid reset link", by simp [resetHandleSubmit, h2, h3]⟩
          · exact absurd ⟨rfl, Nat.le_of_not_lt h2, rfl⟩ hn
    · exact ⟨"Passwords do not match", by simp [resetHandleSubmit, h1]⟩

/-- C10 witness: with matching 9-character passwords and a token present, the
guard conditions are recovered from the fact that the API call is made. -/
theorem reset_password_guard_witness :
    "password1" = "password1" ∧ 8 ≤ "password1".length ∧ (some "tk").isSome = true :=
  (reset_password_guard "password1" "password1" (some "tk")).1 (by decide)

/-- C7 counterexample: a call that receives a 401 response with detail
`"Unauthorized"` makes the dashboard handler redirect to the login page, but
the stored token is NOT discarded — it stays in local storage.  This refutes
the claim that every 401 causes the client to remove its stored token. -/
theorem unauthorized_discards_token_counterexample :
    (dashboardFetchData { token := some "tok", route := "/dashboard" } 401 "Unauthorized").route
        = "/auth/login" ∧
    ¬(dashboardFetchData { token := some "tok", route := "/dashboard" } 401 "Unauthorized").token
        = none := by
  decide

/-- C7 amended: on a 401 response whose error detail contains `'401'` or
`'Unauthorized'`, the dashboard's fetch handler redirects the user to the
login page; the stored token is left unchanged (it is only removed by
`clearToken`, reached from logout). -/
theorem unauthorized_redirects_login (st : ClientState) (detail : String)
    (h : strIncludes detail "401" = true ∨ strIncludes detail "Unauthorized" = true) :
    dashboardFetchData st 401 detail = { st with route := "/auth/login" } ∧
    (dashboardFetchData st 401 detail).token = st.token := by
  have hstep : dashboardFetchData st 401 detail = dashboardCatch st detail := rfl
  rw [hstep, dashboardCatch]
  rcases h with h | h <;> rw [h] <;> simp

/-- C7 witness: a concrete 401 with a recognizable detail redirects to login
and keeps the token. -/
theorem unauthorized_redirects_login_witness :
    dashboardFetchData { token := some "tok", route := "/dashboard" } 401 "401: Not authenticated"
        = { token := some "tok", route := "/auth/login" } ∧
    (dashboardFetchData { token := some "tok", route := "/dashboard" } 401 "401: Not authenticated").token
        = some "tok" :=
  unauthorized_redirects_login { token := some "tok", route := "/dashboard" }
    "401: Not authenticated" (Or.inl (by decide))

/-- Every alert in the image of `readStamp aid now` whose id is `aid` is
read. -/
theorem readMap_mem (l : List Alert) (aid now : Nat) :
    ∀ a ∈ l.map (readStamp aid now), a.id = aid → a.is_read = true := by
  intro a hma heq
  rcases List.mem_map.mp hma with ⟨b, _, rfl⟩
  by_cases h : (b.id == aid) = true
  · simp [readStamp, h]
  · rw [readStamp, if_neg h] at heq
    exact absurd (beq_iff_eq.mpr heq) h

/-- `readStamp` preserves ids and owners, so alert lookup commutes with it. -/
theorem find?_readMap (l : List Alert) (aid uid now : Nat) :
    (l.map (readStamp aid now)).find? (fun a => a.id == aid && a.user_id == uid)
      = Option.map (readStamp aid now)
          (l.find? (fun a => a.id == aid && a.user_id == uid)) := by
  rw [List.find?_map]
  have hcomp : ((fun a : Alert => a.id == aid && a.user_id == uid) ∘ readStamp aid now)
      = (fun a : Alert => a.id == aid && a.user_id == uid) := by
    funext x
    by_cases h : (x.id == aid) = true
    · simp [Function.comp, readStamp, h]
    · simp [Function.comp, readStamp, h]
  rw [hcomp]

/-- When the alert exists, mark-read succeeds and stamps every matching row. -/
theorem markAlertRead_eq_ok (db : DB) (uid aid now : Nat)
    (h : (db.alerts.find? (fun a => a.id == aid && a.user_id == uid)).isSome = true) :
    markAlertRead db uid aid now =
      Except.ok { db with alerts := db.alerts.map (readStamp aid now) } := by
  rcases Option.isSome_iff_exists.mp h with ⟨a0, ha0⟩
  rw [markAlertRead, ha0]

/-- C8: marking the same alert read twice is idempotent — the first call
succeeds and leaves `is_read = true`, and the second call on the same alert
also succeeds (no error) and leaves `is_read = true`. -/
theorem markAlertRead_idempotent (db : DB) (uid aid now now2 : Nat) (a0 : Alert)
    (ha : db.alerts.find? (fun a => a.id == aid && a.user_id == uid) = some a0) :
    ∃ db2, markAlertRead db uid aid now = Except.ok db2 ∧
      (∀ a ∈ db2.alerts, a.id = aid → a.is_read = true) ∧
      ∃ db3, markAlertRead db2 uid aid now2 = Except.ok db3 ∧
        ∀ a ∈ db3.alerts, a.id = aid → a.is_read = true := by
  refine ⟨{ db with alerts := db.alerts.map (readStamp aid now) },
    markAlertRead_eq_ok db uid aid now (by rw [ha]; rfl),
    readMap_mem db.alerts aid now,
    { db with alerts := (db.alerts.map (readStamp aid now)).map (readStamp aid now2) },
    markAlertRead_eq_ok _ uid aid now2 ?_,
    readMap_mem _ aid now2⟩
  show ((db.alerts.map (readStamp aid now)).find?
      (fun a => a.id == aid && a.user_id == uid)).isSome = true
  rw [find?_readMap, ha]
  rfl

/-- C8 witness: a store holding one unread alert, marked read twice. -/
theorem markAlertRead_idempotent_witness :
    ∃ db2,
      markAlertRead
        { exposures := [], requests := [], brokers := [],
          alerts := [{ id := 1, user_id := 7, is_read := false, read_at := none }],
          profiles := [], next_id := 2 } 7 1 5 = Except.ok db2 ∧
      (∀ a ∈ db2.alerts, a.id = 1 → a.is_read = true) ∧
      ∃ db3, markAlertRead db2 7 1 9 = Except.ok db3 ∧
        ∀ a ∈ db3.alerts, a.id = 1 → a.is_read = true :=
  markAlertRead_idempotent
    { exposures := [], requests := [], brokers := [],
      alerts := [{ id := 1, user_id := 7, is_read := false, read_at := none }],
      profiles := [], next_id := 2 } 7 1 5 9
    { id := 1, user_id := 7, is_read := false, read_at := none } (by decide)

/-- `submitStamp` does not change the request id. -/
theorem submitStamp_id (rid now pd : Nat) (x : RemovalRequest) :
    (submitStamp rid now pd x).id = x.id := by
  simp only [submitStamp]; split <;> rfl

/-- `completeStamp` does not change the request id. -/
theorem completeStamp_id (rid now : Nat) (x : RemovalRequest) :
    (completeStamp rid now x).id = x.id := by
  simp only [completeStamp]; split <;> rfl

/-- `submitStamp` does not change the request's exposure reference. -/
theorem submitStamp_exposure (rid now pd : Nat) (x : RemovalRequest) :
    (submitStamp rid now pd x).exposure_id = x.exposure_id := by
  simp only [submitStamp]; split <;> rfl

/-- `completeStamp` does not change the request's exposure reference. -/
theorem completeStamp_exposure (rid now : Nat) (x : RemovalRequest) :
    (completeStamp rid now x).exposure_id = x.exposure_id := by
  simp only [completeStamp]; split <;> rfl

/-- `pendExp` does not change the exposure id. -/
theorem pendExp_id (eid : Nat) (e : Exposure) : (pendExp eid e).id = e.id := by
  simp only [pendExp]; split <;> rfl

/-- `removeExp` does not change the exposure id. -/
theorem removeExp_id (eid : Nat) (e : Exposure) : (removeExp eid e).id = e.id := by
  simp only [removeExp]; split <;> rfl

/-- Request lookup by id commutes with an id-preserving rewrite of the rows. -/
theorem find?_id_map (l : List RemovalRequest) (rid : Nat)
    (g : RemovalRequest → RemovalRequest) (hg : ∀ r, (g r).id = r.id) :
    (l.map g).find? (fun r => r.id == rid)
      = Option.map g (l.find? (fun r => r.id == rid)) := by
  rw [List.find?_map]
  have hcomp : ((fun r : RemovalRequest => r.id == rid) ∘ g)
      = (fun r : RemovalRequest => r.id == rid) := by
    funext x; simp [Function.comp, hg x]
  rw [hcomp]

/-- C2: creating a request for an exposure that already has a non-terminal
request fails with Conflict and changes nothing; creating a request for an
exposure that does not belong to the calling user fails with NotFound and
changes nothing. -/
theorem createRequest_conflict_or_notfound (db : DB) (uid eid : Nat)
    (rt : RequestType) (now : Nat) :
    ((∃ e ∈ db.exposures, (e.id == eid && e.user_id == uid) = true) →
      (∃ r ∈ db.requests, (refsExposure r eid && nonTerminal r) = true) →
      createRequest db uid eid rt now = Except.error ApiError.Conflict ∧
      runResult db (createRequest db uid eid rt now) = db) ∧
    ((∀ e ∈ db.exposures, ¬(e.id == eid && e.user_id == uid) = true) →
      createRequest db uid eid rt now = Except.error ApiError.NotFound ∧
      runResult db (createRequest db uid eid rt now) = db) := by
  constructor
  · intro hown hdup
    have hfind : (db.exposures.find? (fun e => e.id == eid && e.user_id == uid)).isSome = true := by
      rw [List.find?_isSome]; exact hown
    rcases Option.isSome_iff_exists.mp hfind with ⟨e0, he0⟩
    have hany : db.requests.any (fun r => refsExposure r eid && nonTerminal r) = true :=
      List.any_eq_true.mpr hdup
    have hres : createRequest db uid eid rt now = Except.error ApiError.Conflict := by
      simp [createRequest, he0, hany]
    exact ⟨hres, by rw [hres]; rfl⟩
  · intro hnone
    have hfind : db.exposures.find? (fun e => e.id == eid && e.user_id == uid) = none :=
      List.find?_eq_none.mpr hnone
    have hres : createRequest db uid eid rt now = Except.error ApiError.NotFound := by
      simp [createRequest, hfind]
    exact ⟨hres, by rw [hres]; rfl⟩

/-- A store holding one exposure of user 7 on broker 2 with an active
(pending) removal request: the duplicate-creation scenario of spec §8. -/
def dupReqDb : DB :=
  { exposures := [{ id := 1, user_id := 7, broker_id := 2,
                    status := ExposureStatus.pending_removal, profile_url := none,
                    first_detected_at := 0 }],
    requests := [{ id := 3, user_id := 7, broker_id := 2, exposure_id := some 1,
                   request_type := RequestType.opt_out, status := RequestStatus.pending,
                   submitted_at := none, expected_completion := none, completed_at := none,
                   opt_out_url := none, instructions := none,
                   requires_user_action := false, created_at := 0 }],
    brokers := [{ id := 2, opt_out_url := none, opt_out_instructions := none,
                  requires_manual_action := false, processing_days := 7 }],
    alerts := [], profiles := [], next_id := 4 }

/-- C2 witness: creating a second request for the exposure of `dupReqDb`
conflicts and leaves the store unchanged. -/
theorem createRequest_conflict_or_notfound_witness :
    createRequest dupReqDb 7 1 RequestType.opt_out 5 = Except.error ApiError.Conflict ∧
    runResult dupReqDb (createRequest dupReqDb 7 1 RequestType.opt_out 5) = dupReqDb :=
  (createRequest_conflict_or_notfound dupReqDb 7 1 RequestType.opt_out 5).1
    (by decide) (by decide)

/-- C3: submitting a pending request succeeds, stamps the submission time,
and sets the expected completion to the submission time plus the broker's
processing days, touching no exposure; submitting a request in any other
status fails with InvalidState and leaves the store unchanged. -/
theorem submitRequest_correct (db : DB) (rid now : Nat) (r0 : RemovalRequest)
    (hr : db.requests.find? (fun r => r.id == rid) = some r0) :
    (∀ b, db.brokers.find? (fun x => x.id == r0.broker_id) = some b →
      r0.status = RequestStatus.pending →
      ∃ db2, submitRequest db rid now = Except.ok db2 ∧
        db2.exposures = db.exposures ∧
        db2.requests.find? (fun r => r.id == rid) =
          some { r0 with status := RequestStatus.submitted,
                         submitted_at := some now,
                         expected_completion := some (now + b.processing_days) }) ∧
    (r0.status ≠ RequestStatus.pending →
      submitRequest db rid now = Except.error ApiError.InvalidState ∧
      runResult db (submitRequest db rid now) = db) := by
  have hrid : (r0.id == rid) = true := by
    have h2 := List.find?_some hr
    exact h2
  constructor
  · intro b hb hpend
    refine ⟨{ db with requests := db.requests.map (submitStamp rid now b.processing_days) },
      ?_, rfl, ?_⟩
    · simp [submitRequest, hr, hb, hpend]
    · show (db.requests.map (submitStamp rid now b.processing_days)).find?
          (fun r => r.id == rid) = some _
      rw [find?_id_map db.requests rid _ (submitStamp_id rid now b.processing_days), hr]
      simp [submitStamp, hrid]
  · intro hne
    have hcond : (r0.status == RequestStatus.pending) = false := by
      exact beq_eq_false_iff_ne.mpr hne
    have hres : submitRequest db rid now = Except.error ApiError.InvalidState := by
      simp [submitRequest, hr, hcond]
    exact ⟨hres, by rw [hres]; rfl⟩

/-- A store holding one pending removal request for broker 2 (processing time
7 days) on an exposure of user 7. -/
def pendingReqDb : DB :=
  { exposures := [{ id := 1, user_id := 7, broker_id := 2,
                    status := ExposureStatus.pending_removal, profile_url := none,
                    first_detected_at := 0 }],
    requests := [{ id := 3, user_id := 7, broker_id := 2, exposure_id := some 1,
                   request_type := RequestType.opt_out, status := RequestStatus.pending,
                   submitted_at := none, expected_completion := none, completed_at := none,
                   opt_out_url := none, instructions := none,
                   requires_user_action := false, created_at := 0 }],
    brokers := [{ id := 2, opt_out_url := none, opt_out_instructions := none,
                  requires_manual_action := false, processing_days := 7 }],
    alerts := [], profiles := [], next_id := 4 }

/-- C3 witness: submitting the pending request of `pendingReqDb` at time 5
stamps `submitted_at = 5` and `expected_completion = 5 + 7`. -/
theorem submitRequest_correct_witness :
    ∃ db2, submitRequest pendingReqDb 3 5 = Except.ok db2 ∧
      db2.exposures = pendingReqDb.exposures ∧
      db2.requests.find? (fun r => r.id == 3) =
        some { id := 3, user_id := 7, broker_id := 2, exposure_id := some 1,
               request_type := RequestType.opt_out, status := RequestStatus.submitted,
               submitted_at := some 5, expected_completion := some (5 + 7),
               completed_at := none, opt_out_url := none, instructions := none,
               requires_user_action := false, created_at := 0 } :=
  (submitRequest_correct pendingReqDb 3 5
      { id := 3, user_id := 7, broker_id := 2, exposure_id := some 1,
        request_type := RequestType.opt_out, status := RequestStatus.pending,
        submitted_at := none, expected_completion := none, completed_at := none,
        opt_out_url := none, instructions := none,
        requires_user_action := false, created_at := 0 } (by decide)).1
    { id := 2, opt_out_url := none, opt_out_instructions := none,
      requires_manual_action := false, processing_days := 7 }
    (by decide) rfl

/-- C4: completing a request in status `submitted` (or `pending`) succeeds
and stamps `completed_at` exactly once; a second completion call on the same
request fails with InvalidState and leaves the store — in particular the
stamped `completed_at` — unchanged; completing a request already `completed`
or `failed` fails with InvalidState. -/
theorem completeRequest_idempotent_safe (db : DB) (rid now now2 : Nat)
    (r0 : RemovalRequest)
    (hr : db.requests.find? (fun r => r.id == rid) = some r0) :
    ((r0.status = RequestStatus.pending ∨ r0.status = RequestStatus.submitted) →
      ∃ db2, completeRequest db rid now = Except.ok db2 ∧
        db2.requests.find? (fun r => r.id == rid) =
          some { r0 with status := RequestStatus.completed, completed_at := some now } ∧
        completeRequest db2 rid now2 = Except.error ApiError.InvalidState ∧
        runResult db2 (completeRequest db2 rid now2) = db2) ∧
    ((r0.status = RequestStatus.completed ∨ r0.status = RequestStatus.failed) →
      completeRequest db rid now = Except.error ApiError.InvalidState ∧
      runResult db (completeRequest db rid now) = db) := by
  have hrid : (r0.id == rid) = true := by
    have h2 := List.find?_some hr
    exact h2
  constructor
  · intro hst
    have hcond : (r0.status == RequestStatus.pending
        || r0.status == RequestStatus.submitted) = true := by
      rcases hst with h | h <;> rw [h] <;> rfl
    refine ⟨{ db with
        requests := db.requests.map (completeStamp rid now),
        exposures :=
          match r0.exposure_id with
          | none => db.exposures
          | some eid => db.exposures.map (removeExp eid) }, ?_, ?_, ?_, ?_⟩
    · simp [completeRequest, hr, hcond]
    · show (db.requests.map (completeStamp rid now)).find? (fun r => r.id == rid) = some _
      rw [find?_id_map db.requests rid _ (completeStamp_id rid now), hr]
      simp [completeStamp, hrid]
    · have hfind2 : (db.requests.map (completeStamp rid now)).find? (fun r => r.id == rid)
          = some { r0 with status := RequestStatus.completed, completed_at := some now } := by
        rw [find?_id_map db.requests rid _ (completeStamp_id rid now), hr]
        simp [completeStamp, hrid]
      simp [completeRequest, hfind2]
    · have hfind2 : (db.requests.map (completeStamp rid now)).find? (fun r => r.id == rid)
          = some { r0 with status := RequestStatus.completed, completed_at := some now } := by
        rw [find?_id_map db.requests rid _ (completeStamp_id rid now), hr]
        simp [completeStamp, hrid]
      have hres2 : completeRequest
          { db with
            requests := db.requests.map (completeStamp rid now),
            exposures :=
              match r0.exposure_id with
              | none => db.exposures
              | some eid => db.exposures.map (removeExp eid) } rid now2
          = Except.error ApiError.InvalidState := by
        simp [completeRequest, hfind2]
      rw [hres2]; rfl
  · intro hst
    have hcond : (r0.status == RequestStatus.pending
        || r0.status == RequestStatus.submitted) = false := by
      rcases hst with h | h <;> rw [h] <;> rfl
    have hres : completeRequest db rid now = Except.error ApiError.InvalidState := by
      simp [completeRequest, hr, hcond]
    exact ⟨hres, by rw [hres]; rfl⟩

/-- A store holding one submitted removal request on an exposure of user 7. -/
def submittedReqDb : DB :=
  { exposures := [{ id := 1, user_id := 7, broker_id := 2,
                    status := ExposureStatus.pending_removal, profile_url := none,
                    first_detected_at := 0 }],
    requests := [{ id := 3, user_id := 7, broker_id := 2, exposure_id := some 1,
                   request_type := RequestType.opt_out, status := RequestStatus.submitted,
                   submitted_at := some 5, expected_completion := some 12, completed_at := none,
                   opt_out_url := none, instructions := none,
                   requires_user_action := false, created_at := 0 }],
    brokers := [{ id := 2, opt_out_url := none, opt_out_instructions := none,
                  requires_manual_action := false, processing_days := 7 }],
    alerts := [], profiles := [], next_id := 4 }

/-- C4 witness: completing the submitted request of `submittedReqDb` at time
9 stamps `completed_at = 9`, and the second completion call errors. -/
theorem completeRequest_idempotent_safe_witness :
    ∃ db2, completeRequest submittedReqDb 3 9 = Except.ok db2 ∧
      db2.requests.find? (fun r => r.id == 3) =
        some { id := 3, user_id := 7, broker_id := 2, exposure_id := some 1,
               request_type := RequestType.opt_out, status := RequestStatus.completed,
               submitted_at := some 5, expected_completion := some 12,
               completed_at := some 9, opt_out_url := none, instructions := none,
               requires_user_action := false, created_at := 0 } ∧
      completeRequest db2 3 11 = Except.error ApiError.InvalidState ∧
      runResult db2 (completeRequest db2 3 11) = db2 :=
  (completeRequest_idempotent_safe submittedReqDb 3 9 11
      { id := 3, user_id := 7, broker_id := 2, exposure_id := some 1,
        request_type := RequestType.opt_out, status := RequestStatus.submitted,
        submitted_at := some 5, expected_completion := some 12, completed_at := none,
        opt_out_url := none, instructions := none,
        requires_user_action := false, created_at := 0 } (by decide)).1
    (Or.inr rfl)

/-- C6: a scan for a user whose profile lacks a first or last name (or who
has no profile row) fails with PreconditionFailed and produces no exposure
rows; a scan is accepted only when the profile has both names. -/
theorem scan_requires_name (db : DB) (uid : Nat) (findings : List Finding)
    (now : Nat) :
    (∀ p, db.profiles.find? (fun q => q.user_id == uid) = some p →
      (hasName p.first_name && hasName p.last_name) = false →
      scan db uid findings now = Except.error ApiError.PreconditionFailed ∧
      runResult db (scan db uid findings now) = db) ∧
    (db.profiles.find? (fun q => q.user_id == uid) = none →
      scan db uid findings now = Except.error ApiError.PreconditionFailed) ∧
    (∀ db2, scan db uid findings now = Except.ok db2 →
      ∃ p, db.profiles.find? (fun q => q.user_id == uid) = some p ∧
        hasName p.first_name = true ∧ hasName p.last_name = true) := by
  refine ⟨?_, ?_, ?_⟩
  · intro p hp hname
    have hres : scan db uid findings now = Except.error ApiError.PreconditionFailed := by
      simp [scan, hp, hname]
    exact ⟨hres, by rw [hres]; rfl⟩
  · intro hnone
    simp [scan, hnone]
  · intro db2 hok
    cases hf : db.profiles.find? (fun q => q.user_id == uid) with
    | none => simp [scan, hf] at hok
    | some p =>
      by_cases hn : (hasName p.first_name && hasName p.last_name) = true
      · rw [Bool.and_eq_true] at hn
        exact ⟨p, rfl, hn.1, hn.2⟩
      · rw [scan.eq_def, hf] at hok
        simp [hn] at hok

/-- A store whose only profile, for user 7, has a last name but no first
name. -/
def namelessDb : DB :=
  { exposures := [], requests := [], brokers := [], alerts := [],
    profiles := [{ user_id := 7, first_name := none, last_name := some "Doe" }],
    next_id := 1 }

/-- C6 witness: the scan for the first-nameless user of `namelessDb` is
rejected with PreconditionFailed and the store is unchanged. -/
theorem scan_requires_name_witness :
    scan namelessDb 7 [{ broker_id := 2, profile_url := none }] 5
        = Except.error ApiError.PreconditionFailed ∧
    runResult namelessDb (scan namelessDb 7 [{ broker_id := 2, profile_url := none }] 5)
        = namelessDb :=
  (scan_requires_name namelessDb 7 [{ broker_id := 2, profile_url := none }] 5).1
    { user_id := 7, first_name := none, last_name := some "Doe" } (by decide) (by decide)

/-- The forward transition relation of spec §3: stay put, or move
`pending → submitted → completed`, with `failed` reachable from `pending` or
`submitted` only; `completed` and `failed` are absorbing. -/
def allowedStep (a b : RequestStatus) : Bool :=
  a == b ||
  (a == RequestStatus.pending &&
    (b == RequestStatus.submitted || b == RequestStatus.completed
      || b == RequestStatus.failed)) ||
  (a == RequestStatus.submitted &&
    (b == RequestStatus.completed || b == RequestStatus.failed))

/-- Staying put is always allowed. -/
theorem allowedStep_refl (a : RequestStatus) : allowedStep a a = true := by
  cases a <;> rfl

/-- With distinct request ids, any member whose id matches the looked-up id
is the looked-up row itself. -/
theorem mem_id_eq_found (l : List RemovalRequest) (rid : Nat)
    (r0 r : RemovalRequest) (hnd : (l.map (fun x => x.id)).Nodup)
    (hfind : l.find? (fun x => x.id == rid) = some r0)
    (hr : r ∈ l) (hid : (r.id == rid) = true) : r = r0 := by
  have h0 : r0 ∈ l := List.mem_of_find?_eq_some hfind
  have h0id : (r0.id == rid) = true := by
    have h2 := List.find?_some hfind
    exact h2
  exact List.inj_on_of_nodup_map hnd hr h0
    (by rw [beq_iff_eq.mp hid, beq_iff_eq.mp h0id])

/-- C5: each workflow operation moves every request's status only along the
allowed forward relation — identity, `pending → submitted/completed/failed`,
`submitted → completed/failed` — so no operation ever leaves `completed` or
`failed`. -/
theorem request_status_monotone (db : DB) (hnd : reqIdsNodup db) :
    (∀ uid eid rt now db2, createRequest db uid eid rt now = Except.ok db2 →
      ∀ i, (h1 : i < db.requests.length) → (h2 : i < db2.requests.length) →
        allowedStep (db.requests.get ⟨i, h1⟩).status
          (db2.requests.get ⟨i, h2⟩).status = true) ∧
    (∀ rid now db2, submitRequest db rid now = Except.ok db2 →
      ∀ i, (h1 : i < db.requests.length) → (h2 : i < db2.requests.length) →
        allowedStep (db.requests.get ⟨i, h1⟩).status
          (db2.requests.get ⟨i, h2⟩).status = true) ∧
    (∀ rid now db2, completeRequest db rid now = Except.ok db2 →
      ∀ i, (h1 : i < db.requests.length) → (h2 : i < db2.requests.length) →
        allowedStep (db.requests.get ⟨i, h1⟩).status
          (db2.requests.get ⟨i, h2⟩).status = true) := by
  refine ⟨?_, ?_, ?_⟩
  · intro uid eid rt now db2 hok i h1 h2
    rw [createRequest.eq_def] at hok
    cases hfe : db.exposures.find? (fun e => e.id == eid && e.user_id == uid) with
    | none => simp only [hfe] at hok; exact Except.noConfusion hok
    | some e0 =>
      simp only [hfe] at hok
      by_cases hany : (db.requests.any fun r => refsExposure r eid && nonTerminal r) = true
      · rw [if_pos hany] at hok; exact Except.noConfusion hok
      · rw [if_neg hany] at hok
        cases hfb : db.brokers.find? (fun b => b.id == e0.broker_id) with
        | none => simp only [hfb] at hok; exact Except.noConfusion hok
        | some b =>
          simp only [hfb] at hok
          rw [Except.ok.injEq] at hok
          subst hok
          simp only [List.get_eq_getElem]
          rw [List.getElem_append_left h1]
          exact allowedStep_refl _
  · intro rid now db2 hok i h1 h2
    rw [submitRequest.eq_def] at hok
    cases hfr : db.requests.find? (fun r => r.id == rid) with
    | none => simp only [hfr] at hok; exact Except.noConfusion hok
    | some r0 =>
      simp only [hfr] at hok
      by_cases hp : (r0.status == RequestStatus.pending) = true
      · rw [if_pos hp] at hok
        cases hfb : db.brokers.find? (fun b => b.id == r0.broker_id) with
        | none => simp only [hfb] at hok; exact Except.noConfusion hok
        | some b =>
          simp only [hfb] at hok
          rw [Except.ok.injEq] at hok
          subst hok
          simp only [List.get_eq_getElem, List.getElem_map]
          by_cases hid : ((db.requests[i]).id == rid) = true
          · have heq : db.requests[i] = r0 :=
              mem_id_eq_found db.requests rid r0 _ hnd hfr (List.getElem_mem h1) hid
            rw [submitStamp.eq_def, if_pos hid, heq, beq_iff_eq.mp hp]
            rfl
          · rw [submitStamp.eq_def, if_neg hid]
            exact allowedStep_refl _
      · rw [if_neg hp] at hok; exact Except.noConfusion hok
  · intro rid now db2 hok i h1 h2
    rw [completeRequest.eq_def] at hok
    cases hfr : db.requests.find? (fun r => r.id == rid) with
    | none => simp only [hfr] at hok; exact Except.noConfusion hok
    | some r0 =>
      simp only [hfr] at hok
      by_cases hp : (r0.status == RequestStatus.pending
          || r0.status == RequestStatus.submitted) = true
      · rw [if_pos hp] at hok
        rw [Except.ok.injEq] at hok
        subst hok
        simp only [List.get_eq_getElem, List.getElem_map]
        by_cases hid : ((db.requests[i]).id == rid) = true
        · have heq : db.requests[i] = r0 :=
            mem_id_eq_found db.requests rid r0 _ hnd hfr (List.getElem_mem h1) hid
          rw [completeStamp.eq_def, if_pos hid, heq]
          rw [Bool.or_eq_true] at hp
          rcases hp with hp | hp <;> rw [beq_iff_eq.mp hp] <;> rfl
        · rw [completeStamp.eq_def, if_neg hid]
          exact allowedStep_refl _
      · rw [if_neg hp] at hok; exact Except.noConfusion hok

/-- C5 witness: submitting the pending request of `pendingReqDb` moves its
status along an allowed step. -/
theorem request_status_monotone_witness :
    allowedStep (pendingReqDb.requests.get ⟨0, by decide⟩).status
      (((runResult pendingReqDb (submitRequest pendingReqDb 3 5)).requests.get
        ⟨0, by decide⟩).status) = true :=
  (request_status_monotone pendingReqDb (by decide)).2.1 3 5
    (runResult pendingReqDb (submitRequest pendingReqDb 3 5)) rfl 0
    (by decide) (by decide)

/-- A store in which a completed removal cycle has already run: the exposure
is `removed` and its removal request is `completed`. -/
def removedCycleDb : DB :=
  { exposures := [{ id := 1, user_id := 7, broker_id := 2,
                    status := ExposureStatus.removed, profile_url := none,
                    first_detected_at := 0 }],
    requests := [{ id := 3, user_id := 7, broker_id := 2, exposure_id := some 1,
                   request_type := RequestType.opt_out, status := RequestStatus.completed,
                   submitted_at := some 1, expected_completion := some 8,
                   completed_at := some 4, opt_out_url := none, instructions := none,
                   requires_user_action := false, created_at := 0 }],
    brokers := [{ id := 2, opt_out_url := none, opt_out_instructions := none,
                  requires_manual_action := false, processing_days := 7 }],
    alerts := [], profiles := [], next_id := 4 }

/-- C1 counterexample: `removedCycleDb` satisfies the claimed biconditionals,
yet `createRequest` succeeds on its `removed` exposure (the Conflict check
only looks for non-terminal requests) and yields a state where the exposure is
`pending_removal` while a completed request still references it — so
"`removed` iff a completed request references it" is violated, and the
exposure was advanced to `pending_removal` from `removed`, not from `found`. -/
theorem exposure_status_iff_counterexample :
    claimedExposureInv removedCycleDb ∧
    isOk (createRequest removedCycleDb 7 1 RequestType.opt_out 10) = true ∧
    ¬claimedExposureInv
      (runResult removedCycleDb (createRequest removedCycleDb 7 1 RequestType.opt_out 10)) := by
  decide

/-- Appending an element that fails the predicate does not change a bounded
existential over removal requests. -/
theorem exists_append_one (l : List RemovalRequest) (a : RemovalRequest)
    (P : RemovalRequest → Prop) (ha : ¬P a) :
    (∃ r ∈ l ++ [a], P r) ↔ ∃ r ∈ l, P r := by
  constructor
  · rintro ⟨r, hr, hp⟩
    rcases List.mem_append.mp hr with h | h
    · exact ⟨r, h, hp⟩
    · exact absurd (List.mem_singleton.mp h ▸ hp) ha
  · rintro ⟨r, hr, hp⟩
    exact ⟨r, List.mem_append.mpr (Or.inl hr), hp⟩

/-- A bounded existential over a rewritten row list, transferred pointwise. -/
theorem exists_map_iff (l : List RemovalRequest)
    (g : RemovalRequest → RemovalRequest) (P Q : RemovalRequest → Prop)
    (hpq : ∀ r ∈ l, P (g r) ↔ Q r) :
    (∃ r ∈ l.map g, P r) ↔ ∃ r ∈ l, Q r := by
  constructor
  · rintro ⟨r2, hr2, hp⟩
    rcases List.mem_map.mp hr2 with ⟨r, hr, rfl⟩
    exact ⟨r, hr, (hpq r hr).mp hp⟩
  · rintro ⟨r, hr, hq⟩
    exact ⟨g r, List.mem_map_of_mem g hr, (hpq r hr).mpr hq⟩

/-- A predicate satisfied at most once on a list is satisfied by at most one
member. -/
theorem countP_le_one_unique (l : List RemovalRequest)
    (p : RemovalRequest → Bool) (h : l.countP p ≤ 1) (a b : RemovalRequest)
    (ha : a ∈ l) (hb : b ∈ l) (hpa : p a = true) (hpb : p b = true) : a = b := by
  have ha2 : a ∈ l.filter p := List.mem_filter.mpr ⟨ha, hpa⟩
  have hb2 : b ∈ l.filter p := List.mem_filter.mpr ⟨hb, hpb⟩
  have hlen : (l.filter p).length ≤ 1 := by
    rw [← List.countP_eq_length_filter]; exact h
  cases hf : l.filter p with
  | nil => rw [hf] at ha2; exact absurd ha2 (List.not_mem_nil a)
  | cons x t =>
    cases t with
    | nil =>
      rw [hf] at ha2 hb2
      rw [List.mem_singleton.mp ha2, List.mem_singleton.mp hb2]
    | cons y t2 =>
      rw [hf] at hlen
      simp [List.length_cons] at hlen

/-- `optBelow` is monotone in the bound. -/
theorem optBelow_succ (o : Option Nat) (n : Nat) (h : optBelow o n = true) :
    optBelow o (n + 1) = true := by
  cases o with
  | none => rfl
  | some k =>
    simp only [optBelow] at h ⊢
    rw [Nat.blt_eq] at h ⊢
    exact Nat.lt_succ_of_lt h

/-- A request whose exposure reference is below `n` does not reference `n`. -/
theorem refsExposure_false_of_below (r : RemovalRequest) (n : Nat)
    (h : optBelow r.exposure_id n = true) : refsExposure r n = false := by
  simp only [refsExposure]
  cases ho : r.exposure_id with
  | none => rfl
  | some k =>
    rw [ho] at h
    simp only [optBelow] at h
    rw [Nat.blt_eq] at h
    rw [beq_eq_false_iff_ne]
    intro hc
    injection hc with hc2
    rw [hc2] at h
    exact Nat.lt_irrefl n h

/-- Core of createRequest preservation: appending one fresh pending request
for exposure `eid` and marking that exposure `pending_removal` keeps the
store invariant, provided no non-terminal request referenced `eid` before. -/
theorem create_post_inv (db : DB) (eid : Nat) (req : RemovalRequest)
    (hinv : exposureReqInv db) (hamo : atMostOneActive db) (hnd : reqIdsNodup db)
    (hf1 : ∀ e ∈ db.exposures, e.id < db.next_id)
    (hf2 : ∀ r ∈ db.requests, r.id < db.next_id)
    (hf3 : ∀ r ∈ db.requests, optBelow r.exposure_id db.next_id = true)
    (hnone : ∀ r ∈ db.requests, ¬(refsExposure r eid && nonTerminal r) = true)
    (hexists : ∃ e ∈ db.exposures, e.id = eid)
    (hreq_refs : req.exposure_id = some eid)
    (hreq_status : req.status = RequestStatus.pending)
    (hreq_id : req.id = db.next_id) :
    Inv { db with requests := db.requests ++ [req],
                  exposures := db.exposures.map (pendExp eid),
                  next_id := db.next_id + 1 } ∧
    ∀ e ∈ db.exposures.map (pendExp eid), e.id = eid →
      e.status = ExposureStatus.pending_removal := by
  have hreqNT : nonTerminal req = true := by simp [nonTerminal, hreq_status]
  have hreqC : req.status ≠ RequestStatus.completed := by
    rw [hreq_status]; intro hc; exact RequestStatus.noConfusion hc
  refine ⟨⟨?_, ?_, ?_, ?_, ?_, ?_⟩, ?_⟩
  · -- exposureReqInv
    intro e' he'
    rcases List.mem_map.mp he' with ⟨e, he, rfl⟩
    by_cases hid : (e.id == eid) = true
    · have heid : e.id = eid := beq_iff_eq.mp hid
      have hpend : pendExp eid e = { e with status := ExposureStatus.pending_removal } := by
        simp [pendExp, hid]
      rw [hpend]
      have hrefs : refsExposure req
          ({ e with status := ExposureStatus.pending_removal } : Exposure).id = true := by
        simp [refsExposure, hreq_refs, heid]
      constructor
      · constructor
        · intro _
          exact ⟨req, List.mem_append.mpr (Or.inr (List.mem_singleton.mpr rfl)),
            hrefs, hreqNT⟩
        · intro _; rfl
      · constructor
        · intro hL; exact ExposureStatus.noConfusion hL
        · rintro ⟨_, hB⟩
          exact absurd ⟨req, List.mem_append.mpr (Or.inr (List.mem_singleton.mpr rfl)),
            hrefs, hreqNT⟩ hB
    · have heid : e.id ≠ eid := fun hc => absurd (beq_iff_eq.mpr hc) hid
      have hpende : pendExp eid e = e := by simp [pendExp, hid]
      rw [hpende]
      have hrefs : refsExposure req e.id = false := by
        simp only [refsExposure]
        rw [hreq_refs, beq_eq_false_iff_ne]
        intro hc; injection hc with hc2; exact heid hc2.symm
      have hPa : ¬(refsExposure req e.id = true ∧ nonTerminal req = true) := by
        rintro ⟨hc, _⟩; rw [hrefs] at hc; exact Bool.false_ne_true hc
      have hPc : ¬(refsExposure req e.id = true ∧ req.status = RequestStatus.completed) := by
        rintro ⟨hc, _⟩; rw [hrefs] at hc; exact Bool.false_ne_true hc
      constructor
      · rw [exists_append_one db.requests req _ hPa]
        exact (hinv e he).1
      · rw [exists_append_one db.requests req _ hPc,
            exists_append_one db.requests req _ hPa]
        exact (hinv e he).2
  · -- atMostOneActive
    intro e' he'
    have he2 : e' ∈ db.exposures.map (pendExp eid) := he'
    rcases List.mem_map.mp he2 with ⟨e, he, rfl⟩
    show List.countP (fun r => refsExposure r (pendExp eid e).id && nonTerminal r)
      (db.requests ++ [req]) ≤ 1
    rw [pendExp_id, List.countP_append, List.countP_cons, List.countP_nil]
    by_cases hid : (e.id == eid) = true
    · have heid : e.id = eid := beq_iff_eq.mp hid
      have hzero : db.requests.countP (fun r => refsExposure r e.id && nonTerminal r) = 0 := by
        rw [List.countP_eq_zero]
        intro r hr
        rw [heid]
        exact hnone r hr
      rw [hzero]
      have : (if (refsExposure req e.id && nonTerminal req) = true then 1 else 0) ≤ 1 := by
        split <;> omega
      omega
    · have heid : e.id ≠ eid := fun hc => absurd (beq_iff_eq.mpr hc) hid
      have hrefs : refsExposure req e.id = false := by
        simp only [refsExposure]
        rw [hreq_refs, beq_eq_false_iff_ne]
        intro hc; injection hc with hc2; exact heid hc2.symm
      have hzero : (if (refsExposure req e.id && nonTerminal req) = true then 1 else 0) = 0 := by
        rw [hrefs]; rfl
      rw [hzero]
      have := hamo e he
      omega
  · -- reqIdsNodup
    show (List.map (fun r => r.id) (db.requests ++ [req])).Nodup
    rw [List.map_append, List.nodup_append]
    refine ⟨hnd, List.nodup_singleton _, ?_⟩
    intro a ha hb
    rcases List.mem_map.mp ha with ⟨r, hr, rfl⟩
    have hb2 : r.id = req.id := List.mem_singleton.mp (by simpa using hb)
    rw [hreq_id] at hb2
    exact absurd hb2 (Nat.ne_of_lt (hf2 r hr))
  · -- idsFresh, exposures
    intro e' he'
    have he2 : e' ∈ db.exposures.map (pendExp eid) := he'
    rcases List.mem_map.mp he2 with ⟨e, he, rfl⟩
    show (pendExp eid e).id < db.next_id + 1
    rw [pendExp_id]
    exact Nat.lt_succ_of_lt (hf1 e he)
  · -- idsFresh, request ids
    intro r hr
    rcases List.mem_append.mp hr with h | h
    · exact Nat.lt_succ_of_lt (hf2 r h)
    · rw [List.mem_singleton.mp h, hreq_id]
      exact Nat.lt_succ_self _
  · -- idsFresh, exposure references
    intro r hr
    rcases List.mem_append.mp hr with h | h
    · exact optBelow_succ _ _ (hf3 r h)
    · rw [List.mem_singleton.mp h, hreq_refs]
      simp only [optBelow]
      rw [Nat.blt_eq]
      rcases hexists with ⟨e1, he1, he1id⟩
      rw [← he1id]
      exact Nat.lt_succ_of_lt (hf1 e1 he1)
  · -- the created exposure transition
    intro e' he' hid'
    rcases List.mem_map.mp he' with ⟨e, he, rfl⟩
    by_cases hid : (e.id == eid) = true
    · simp [pendExp, hid]
    · rw [pendExp_id] at hid'
      exact absurd (beq_iff_eq.mpr hid') hid

/-- `createRequest` preserves the store invariant and advances the target
exposure to `pending_removal`. -/
theorem createRequest_preserves_inv (db : DB) (h : Inv db) (uid eid : Nat)
    (rt : RequestType) (now : Nat) (db2 : DB)
    (hok : createRequest db uid eid rt now = Except.ok db2) :
    Inv db2 ∧ ∀ e ∈ db2.exposures, e.id = eid →
      e.status = ExposureStatus.pending_removal := by
  obtain ⟨hinv, hamo, hnd, hf1, hf2, hf3⟩ := h
  rw [createRequest.eq_def] at hok
  cases hfe : db.exposures.find? (fun e => e.id == eid && e.user_id == uid) with
  | none => simp only [hfe] at hok; exact Except.noConfusion hok
  | some e0 =>
    simp only [hfe] at hok
    by_cases hany : (db.requests.any fun r => refsExposure r eid && nonTerminal r) = true
    · rw [if_pos hany] at hok; exact Except.noConfusion hok
    · rw [if_neg hany] at hok
      cases hfb : db.brokers.find? (fun b => b.id == e0.broker_id) with
      | none => simp only [hfb] at hok; exact Except.noConfusion hok
      | some b =>
        simp only [hfb] at hok
        rw [Except.ok.injEq] at hok
        subst hok
        have hnone : ∀ r ∈ db.requests, ¬(refsExposure r eid && nonTerminal r) = true := by
          intro r hr hcon
          exact hany (List.any_eq_true.mpr ⟨r, hr, hcon⟩)
        have he0mem : e0 ∈ db.exposures := List.mem_of_find?_eq_some hfe
        have he0p : (e0.id == eid && e0.user_id == uid) = true := by
          have h2 := List.find?_some hfe
          exact h2
        have he0id : e0.id = eid := by
          rw [Bool.and_eq_true] at he0p
          exact beq_iff_eq.mp he0p.1
        exact create_post_inv db eid _ hinv hamo hnd hf1 hf2 hf3 hnone
          ⟨e0, he0mem, he0id⟩ rfl rfl rfl

/-- Rewriting the request rows with a function that preserves ids, exposure
references, non-terminality and completedness preserves the store
invariant. -/
theorem map_requests_inv (db : DB) (g : RemovalRequest → RemovalRequest)
    (hinv : exposureReqInv db) (hamo : atMostOneActive db) (hnd : reqIdsNodup db)
    (hf1 : ∀ e ∈ db.exposures, e.id < db.next_id)
    (hf2 : ∀ r ∈ db.requests, r.id < db.next_id)
    (hf3 : ∀ r ∈ db.requests, optBelow r.exposure_id db.next_id = true)
    (hg_id : ∀ r, (g r).id = r.id)
    (hg_exp : ∀ r, (g r).exposure_id = r.exposure_id)
    (hg_nt : ∀ r ∈ db.requests, nonTerminal (g r) = nonTerminal r)
    (hg_c : ∀ r ∈ db.requests,
      (g r).status = RequestStatus.completed ↔ r.status = RequestStatus.completed) :
    Inv { db with requests := db.requests.map g } := by
  have hrefs : ∀ r (k : Nat), refsExposure (g r) k = refsExposure r k := by
    intro r k; simp only [refsExposure, hg_exp r]
  refine ⟨?_, ?_, ?_, ?_, ?_, ?_⟩
  · intro e he
    have he2 : e ∈ db.exposures := he
    constructor
    · show e.status = ExposureStatus.pending_removal ↔
        ∃ r ∈ db.requests.map g, refsExposure r e.id = true ∧ nonTerminal r = true
      rw [exists_map_iff db.requests g _ _ (fun r hr => by
        rw [hrefs r e.id, hg_nt r hr])]
      exact (hinv e he2).1
    · show e.status = ExposureStatus.removed ↔
        ((∃ r ∈ db.requests.map g, refsExposure r e.id = true ∧
            r.status = RequestStatus.completed) ∧
          ¬∃ r ∈ db.requests.map g, refsExposure r e.id = true ∧ nonTerminal r = true)
      rw [exists_map_iff db.requests g
          (fun r => refsExposure r e.id = true ∧ r.status = RequestStatus.completed)
          (fun r => refsExposure r e.id = true ∧ r.status = RequestStatus.completed)
          (fun r hr => by
            show refsExposure (g r) e.id = true ∧ (g r).status = RequestStatus.completed ↔
              refsExposure r e.id = true ∧ r.status = RequestStatus.completed
            rw [hrefs r e.id]
            exact and_congr Iff.rfl (hg_c r hr)),
        exists_map_iff db.requests g
          (fun r => refsExposure r e.id = true ∧ nonTerminal r = true)
          (fun r => refsExposure r e.id = true ∧ nonTerminal r = true)
          (fun r hr => by
            show refsExposure (g r) e.id = true ∧ nonTerminal (g r) = true ↔
              refsExposure r e.id = true ∧ nonTerminal r = true
            rw [hrefs r e.id, hg_nt r hr])]
      exact (hinv e he2).2
  · intro e he
    have he2 : e ∈ db.exposures := he
    show List.countP (fun r => refsExposure r e.id && nonTerminal r)
      (db.requests.map g) ≤ 1
    rw [List.countP_map]
    have hc : List.countP ((fun r => refsExposure r e.id && nonTerminal r) ∘ g) db.requests
        = List.countP (fun r => refsExposure r e.id && nonTerminal r) db.requests :=
      List.countP_congr (fun r hr => by
        simp only [Function.comp]
        rw [hrefs r e.id, hg_nt r hr])
    rw [hc]
    exact hamo e he2
  · show (List.map (fun r => r.id) (db.requests.map g)).Nodup
    rw [List.map_map]
    have hcomp : ((fun r : RemovalRequest => r.id) ∘ g) = fun r : RemovalRequest => r.id :=
      funext (fun r => hg_id r)
    rw [hcomp]
    exact hnd
  · intro e he
    exact hf1 e he
  · intro r hr
    have hr2 : r ∈ db.requests.map g := hr
    rcases List.mem_map.mp hr2 with ⟨r0, h0, rfl⟩
    show (g r0).id < db.next_id
    rw [hg_id]
    exact hf2 r0 h0
  · intro r hr
    have hr2 : r ∈ db.requests.map g := hr
    rcases List.mem_map.mp hr2 with ⟨r0, h0, rfl⟩
    show optBelow (g r0).exposure_id db.next_id = true
    rw [hg_exp]
    exact hf3 r0 h0

/-- `submitRequest` preserves the store invariant. -/
theorem submitRequest_preserves_inv (db : DB) (h : Inv db) (rid now : Nat)
    (db2 : DB) (hok : submitRequest db rid now = Except.ok db2) : Inv db2 := by
  obtain ⟨hinv, hamo, hnd, hf1, hf2, hf3⟩ := h
  rw [submitRequest.eq_def] at hok
  cases hfr : db.requests.find? (fun r => r.id == rid) with
  | none => simp only [hfr] at hok; exact Except.noConfusion hok
  | some r0 =>
    simp only [hfr] at hok
    by_cases hp : (r0.status == RequestStatus.pending) = true
    · rw [if_pos hp] at hok
      cases hfb : db.brokers.find? (fun b => b.id == r0.broker_id) with
      | none => simp only [hfb] at hok; exact Except.noConfusion hok
      | some b =>
        simp only [hfb] at hok
        rw [Except.ok.injEq] at hok
        subst hok
        apply map_requests_inv db _ hinv hamo hnd hf1 hf2 hf3
        · exact submitStamp_id rid now b.processing_days
        · exact submitStamp_exposure rid now b.processing_days
        · intro r hr
          by_cases hid : (r.id == rid) = true
          · have heq : r = r0 := mem_id_eq_found db.requests rid r0 r hnd hfr hr hid
            subst heq
            rw [submitStamp.eq_def, if_pos hid]
            simp [nonTerminal, beq_iff_eq.mp hp]
            decide
          · rw [submitStamp.eq_def, if_neg hid]
        · intro r hr
          by_cases hid : (r.id == rid) = true
          · have heq : r = r0 := mem_id_eq_found db.requests rid r0 r hnd hfr hr hid
            subst heq
            rw [submitStamp.eq_def, if_pos hid]
            constructor
            · intro hc; exact RequestStatus.noConfusion hc
            · intro hc
              rw [beq_iff_eq.mp hp] at hc
              exact RequestStatus.noConfusion hc
          · rw [submitStamp.eq_def, if_neg hid]
    · rw [if_neg hp] at hok; exact Except.noConfusion hok

/-- Completing a request not referencing exposure `k` does not change the
bounded existentials over requests at key `k`. -/
theorem exists_completeStamp_iff (l : List RemovalRequest) (rid now : Nat)
    (r0 : RemovalRequest) (hnd : (l.map (fun x => x.id)).Nodup)
    (hfr : l.find? (fun x => x.id == rid) = some r0)
    (k : Nat) (hrefs : refsExposure r0 k = false) :
    ((∃ r ∈ l.map (completeStamp rid now),
        refsExposure r k = true ∧ nonTerminal r = true) ↔
      ∃ r ∈ l, refsExposure r k = true ∧ nonTerminal r = true) ∧
    ((∃ r ∈ l.map (completeStamp rid now),
        refsExposure r k = true ∧ r.status = RequestStatus.completed) ↔
      ∃ r ∈ l, refsExposure r k = true ∧ r.status = RequestStatus.completed) := by
  have hrefs_g : ∀ r (kk : Nat),
      refsExposure (completeStamp rid now r) kk = refsExposure r kk :=
    fun r kk => by simp only [refsExposure, completeStamp_exposure]
  constructor
  · apply exists_map_iff l _
      (fun r => refsExposure r k = true ∧ nonTerminal r = true)
      (fun r => refsExposure r k = true ∧ nonTerminal r = true)
    intro r hr
    show refsExposure (completeStamp rid now r) k = true ∧
        nonTerminal (completeStamp rid now r) = true ↔
      refsExposure r k = true ∧ nonTerminal r = true
    by_cases hid : (r.id == rid) = true
    · have heq : r = r0 := mem_id_eq_found l rid r0 r hnd hfr hr hid
      subst heq
      rw [hrefs_g r k, hrefs]
      constructor
      · rintro ⟨hc, -⟩; exact absurd hc Bool.false_ne_true
      · rintro ⟨hc, -⟩; exact absurd hc Bool.false_ne_true
    · rw [completeStamp.eq_def, if_neg hid]
  · apply exists_map_iff l _
      (fun r => refsExposure r k = true ∧ r.status = RequestStatus.completed)
      (fun r => refsExposure r k = true ∧ r.status = RequestStatus.completed)
    intro r hr
    show refsExposure (completeStamp rid now r) k = true ∧
        (completeStamp rid now r).status = RequestStatus.completed ↔
      refsExposure r k = true ∧ r.status = RequestStatus.completed
    by_cases hid : (r.id == rid) = true
    · have heq : r = r0 := mem_id_eq_found l rid r0 r hnd hfr hr hid
      subst heq
      rw [hrefs_g r k, hrefs]
      constructor
      · rintro ⟨hc, -⟩; exact absurd hc Bool.false_ne_true
      · rintro ⟨hc, -⟩; exact absurd hc Bool.false_ne_true
    · rw [completeStamp.eq_def, if_neg hid]

/-- Completing a request can only lower the number of active requests per
exposure. -/
theorem countP_completeStamp_le (l : List RemovalRequest) (rid now k : Nat) :
    List.countP (fun r => refsExposure r k && nonTerminal r)
        (l.map (completeStamp rid now))
      ≤ List.countP (fun r => refsExposure r k && nonTerminal r) l := by
  rw [List.countP_map]
  apply List.countP_mono_left
  intro r hr h
  simp only [Function.comp] at h
  rw [Bool.and_eq_true] at h
  obtain ⟨h1, h2⟩ := h
  have hexp : refsExposure (completeStamp rid now r) k = refsExposure r k := by
    simp only [refsExposure, completeStamp_exposure]
  rw [hexp] at h1
  by_cases hid : (r.id == rid) = true
  · rw [completeStamp.eq_def, if_pos hid] at h2
    have hzero : nonTerminal
        { r with status := RequestStatus.completed, completed_at := some now } = false := rfl
    rw [hzero] at h2
    exact absurd h2 Bool.false_ne_true
  · rw [completeStamp.eq_def, if_neg hid] at h2
    rw [Bool.and_eq_true]
    exact ⟨h1, h2⟩

/-- Core of completeRequest preservation: completing the looked-up
non-terminal request and marking its referenced exposure `removed` keeps the
store invariant, and the referenced exposure ends `removed`. -/
theorem complete_post_inv (db : DB) (rid now : Nat) (r0 : RemovalRequest)
    (hinv : exposureReqInv db) (hamo : atMostOneActive db) (hnd : reqIdsNodup db)
    (hf1 : ∀ e ∈ db.exposures, e.id < db.next_id)
    (hf2 : ∀ r ∈ db.requests, r.id < db.next_id)
    (hf3 : ∀ r ∈ db.requests, optBelow r.exposure_id db.next_id = true)
    (hfr : db.requests.find? (fun r => r.id == rid) = some r0)
    (hnt0 : nonTerminal r0 = true) :
    Inv { db with
          requests := db.requests.map (completeStamp rid now),
          exposures := match r0.exposure_id with
            | none => db.exposures
            | some eid => db.exposures.map (removeExp eid) } ∧
    ∀ e ∈ (match r0.exposure_id with
           | none => db.exposures
           | some eid => db.exposures.map (removeExp eid)),
      r0.exposure_id = some e.id → e.status = ExposureStatus.removed := by
  have hr0mem : r0 ∈ db.requests := List.mem_of_find?_eq_some hfr
  have hr0id : (r0.id == rid) = true := by
    have h2 := List.find?_some hfr
    exact h2
  have hrefs_g : ∀ r (kk : Nat),
      refsExposure (completeStamp rid now r) kk = refsExposure r kk :=
    fun r kk => by simp only [refsExposure, completeStamp_exposure]
  cases ho : r0.exposure_id with
  | none =>
    refine ⟨⟨?_, ?_, ?_, ?_, ?_, ?_⟩, ?_⟩
    · intro e he
      have he2 : e ∈ db.exposures := he
      have hrefs0 : refsExposure r0 e.id = false := by simp [refsExposure, ho]
      have htr := exists_completeStamp_iff db.requests rid now r0 hnd hfr e.id hrefs0
      constructor
      · show e.status = ExposureStatus.pending_removal ↔
          ∃ r ∈ db.requests.map (completeStamp rid now),
            refsExposure r e.id = true ∧ nonTerminal r = true
        rw [htr.1]
        exact (hinv e he2).1
      · show e.status = ExposureStatus.removed ↔
          ((∃ r ∈ db.requests.map (completeStamp rid now),
              refsExposure r e.id = true ∧ r.status = RequestStatus.completed) ∧
            ¬∃ r ∈ db.requests.map (completeStamp rid now),
              refsExposure r e.id = true ∧ nonTerminal r = true)
        rw [htr.1, htr.2]
        exact (hinv e he2).2
    · intro e he
      have he2 : e ∈ db.exposures := he
      show List.countP (fun r => refsExposure r e.id && nonTerminal r)
        (db.requests.map (completeStamp rid now)) ≤ 1
      exact le_trans (countP_completeStamp_le db.requests rid now e.id) (hamo e he2)
    · show (List.map (fun r => r.id) (db.requests.map (completeStamp rid now))).Nodup
      rw [List.map_map]
      have hcomp : ((fun r : RemovalRequest => r.id) ∘ completeStamp rid now)
          = fun r : RemovalRequest => r.id := funext (fun r => completeStamp_id rid now r)
      rw [hcomp]
      exact hnd
    · intro e he
      exact hf1 e he
    · intro r hr
      have hr2 : r ∈ db.requests.map (completeStamp rid now) := hr
      rcases List.mem_map.mp hr2 with ⟨r1, h1, rfl⟩
      show (completeStamp rid now r1).id < db.next_id
      rw [completeStamp_id]
      exact hf2 r1 h1
    · intro r hr
      have hr2 : r ∈ db.requests.map (completeStamp rid now) := hr
      rcases List.mem_map.mp hr2 with ⟨r1, h1, rfl⟩
      show optBelow (completeStamp rid now r1).exposure_id db.next_id = true
      rw [completeStamp_exposure]
      exact hf3 r1 h1
    · intro e he hsome
      exact Option.noConfusion hsome
  | some eid0 =>
    have hpred0 : (refsExposure r0 eid0 && nonTerminal r0) = true := by
      rw [Bool.and_eq_true]
      refine ⟨?_, hnt0⟩
      simp [refsExposure, ho]
    refine ⟨⟨?_, ?_, ?_, ?_, ?_, ?_⟩, ?_⟩
    · intro e' he'
      have he2 : e' ∈ db.exposures.map (removeExp eid0) := he'
      rcases List.mem_map.mp he2 with ⟨e, he, rfl⟩
      by_cases hid : (e.id == eid0) = true
      · have heid : e.id = eid0 := beq_iff_eq.mp hid
        have hrm : removeExp eid0 e = { e with status := ExposureStatus.removed } := by
          simp [removeExp, hid]
        rw [hrm]
        have hcount : List.countP (fun r => refsExposure r eid0 && nonTerminal r)
            db.requests ≤ 1 := by
          have hc := hamo e he
          rw [heid] at hc
          exact hc
        have huniq : ∀ r ∈ db.requests,
            (refsExposure r eid0 && nonTerminal r) = true → r = r0 :=
          fun r hr hpr =>
            countP_le_one_unique db.requests _ hcount r r0 hr hr0mem hpr hpred0
        have hBfalse : ¬∃ r ∈ db.requests.map (completeStamp rid now),
            refsExposure r ({ e with status := ExposureStatus.removed } : Exposure).id = true ∧
            nonTerminal r = true := by
          rintro ⟨r2, hr2, hre, hnt2⟩
          rcases List.mem_map.mp hr2 with ⟨r, hr, rfl⟩
          by_cases hid2 : (r.id == rid) = true
          · have hzero : nonTerminal (completeStamp rid now r) = false := by
              rw [completeStamp.eq_def, if_pos hid2]
              rfl
            rw [hzero] at hnt2
            exact Bool.false_ne_true hnt2
          · rw [completeStamp.eq_def, if_neg hid2] at hre hnt2
            have hre2 : refsExposure r eid0 = true := by
              rw [← heid]
              exact hre
            have hpr : (refsExposure r eid0 && nonTerminal r) = true := by
              rw [Bool.and_eq_true]
              exact ⟨hre2, hnt2⟩
            have heqr := huniq r hr hpr
            rw [heqr] at hid2
            exact hid2 hr0id
        constructor
        · constructor
          · intro hL; exact ExposureStatus.noConfusion hL
          · intro hB; exact absurd hB hBfalse
        · constructor
          · intro _
            refine ⟨⟨completeStamp rid now r0, List.mem_map_of_mem _ hr0mem, ?_, ?_⟩, hBfalse⟩
            · show refsExposure (completeStamp rid now r0)
                ({ e with status := ExposureStatus.removed } : Exposure).id = true
              rw [hrefs_g r0 _]
              show refsExposure r0 e.id = true
              simp [refsExposure, ho, heid]
            · show (completeStamp rid now r0).status = RequestStatus.completed
              rw [completeStamp.eq_def, if_pos hr0id]
          · intro _; rfl
      · have heid : e.id ≠ eid0 := fun hc => absurd (beq_iff_eq.mpr hc) hid
        have hrm : removeExp eid0 e = e := by simp [removeExp, hid]
        rw [hrm]
        have hrefs0 : refsExposure r0 e.id = false := by
          simp only [refsExposure]
          rw [ho, beq_eq_false_iff_ne]
          intro hc; injection hc with hc2; exact heid hc2.symm
        have htr := exists_completeStamp_iff db.requests rid now r0 hnd hfr e.id hrefs0
        constructor
        · show e.status = ExposureStatus.pending_removal ↔
            ∃ r ∈ db.requests.map (completeStamp rid now),
              refsExposure r e.id = true ∧ nonTerminal r = true
          rw [htr.1]
          exact (hinv e he).1
        · show e.status = ExposureStatus.removed ↔
            ((∃ r ∈ db.requests.map (completeStamp rid now),
                refsExposure r e.id = true ∧ r.status = RequestStatus.completed) ∧
              ¬∃ r ∈ db.requests.map (completeStamp rid now),
                refsExposure r e.id = true ∧ nonTerminal r = true)
          rw [htr.1, htr.2]
          exact (hinv e he).2
    · intro e' he'
      have he2 : e' ∈ db.exposures.map (removeExp eid0) := he'
      rcases List.mem_map.mp he2 with ⟨e, he, rfl⟩
      show List.countP (fun r => refsExposure r (removeExp eid0 e).id && nonTerminal r)
        (db.requests.map (completeStamp rid now)) ≤ 1
      rw [removeExp_id]
      exact le_trans (countP_completeStamp_le db.requests rid now e.id) (hamo e he)
    · show (List.map (fun r => r.id) (db.requests.map (completeStamp rid now))).Nodup
      rw [List.map_map]
      have hcomp : ((fun r : RemovalRequest => r.id) ∘ completeStamp rid now)
          = fun r : RemovalRequest => r.id := funext (fun r => completeStamp_id rid now r)
      rw [hcomp]
      exact hnd
    · intro e' he'
      have he2 : e' ∈ db.exposures.map (removeExp eid0) := he'
      rcases List.mem_map.mp he2 with ⟨e, he, rfl⟩
      show (removeExp eid0 e).id < db.next_id
      rw [removeExp_id]
      exact hf1 e he
    · intro r hr
      have hr2 : r ∈ db.requests.map (completeStamp rid now) := hr
      rcases List.mem_map.mp hr2 with ⟨r1, h1, rfl⟩
      show (completeStamp rid now r1).id < db.next_id
      rw [completeStamp_id]
      exact hf2 r1 h1
    · intro r hr
      have hr2 : r ∈ db.requests.map (completeStamp rid now) := hr
      rcases List.mem_map.mp hr2 with ⟨r1, h1, rfl⟩
      show optBelow (completeStamp rid now r1).exposure_id db.next_id = true
      rw [completeStamp_exposure]
      exact hf3 r1 h1
    · intro e' he' hsome
      have he2 : e' ∈ db.exposures.map (removeExp eid0) := he'
      rcases List.mem_map.mp he2 with ⟨e, he, rfl⟩
      injection hsome with h2
      have h3 : eid0 = e.id := by
        rw [removeExp_id] at h2
        exact h2
      have hid : (e.id == eid0) = true := beq_iff_eq.mpr h3.symm
      simp [removeExp, hid]

/-- `completeRequest` preserves the store invariant and advances the linked
exposure to `removed`. -/
theorem completeRequest_preserves_inv (db : DB) (h : Inv db) (rid now : Nat)
    (db2 : DB) (hok : completeRequest db rid now = Except.ok db2) :
    Inv db2 ∧ ∀ r ∈ db.requests, r.id = rid →
      ∀ e ∈ db2.exposures, r.exposure_id = some e.id →
        e.status = ExposureStatus.removed := by
  obtain ⟨hinv, hamo, hnd, hf1, hf2, hf3⟩ := h
  rw [completeRequest.eq_def] at hok
  cases hfr : db.requests.find? (fun r => r.id == rid) with
  | none => simp only [hfr] at hok; exact Except.noConfusion hok
  | some r0 =>
    simp only [hfr] at hok
    by_cases hp : (r0.status == RequestStatus.pending
        || r0.status == RequestStatus.submitted) = true
    · rw [if_pos hp] at hok
      rw [Except.ok.injEq] at hok
      subst hok
      have hnt0 : nonTerminal r0 = true := by
        rw [Bool.or_eq_true] at hp
        rcases hp with hp | hp <;> simp [nonTerminal, beq_iff_eq.mp hp]
      have hmain := complete_post_inv db rid now r0 hinv hamo hnd hf1 hf2 hf3 hfr hnt0
      refine ⟨hmain.1, ?_⟩
      intro r hr hrid e he hsome
      have heqr : r = r0 :=
        mem_id_eq_found db.requests rid r0 r hnd hfr hr (beq_iff_eq.mpr hrid)
      subst heqr
      exact hmain.2 e he hsome
    · rw [if_neg hp] at hok; exact Except.noConfusion hok

/-- One scan insertion step preserves the store invariant. -/
theorem scanStep_inv (db : DB) (h : Inv db) (uid now : Nat) (f : Finding) :
    Inv (scanStep uid now db f) := by
  obtain ⟨hinv, hamo, hnd, hf1, hf2, hf3⟩ := h
  by_cases hdup : (db.exposures.any fun e =>
      e.user_id == uid && e.broker_id == f.broker_id
        && !(e.status == ExposureStatus.removed)) = true
  · rw [scanStep.eq_def, if_pos hdup]
    exact ⟨hinv, hamo, hnd, hf1, hf2, hf3⟩
  · rw [scanStep.eq_def, if_neg hdup]
    refine ⟨?_, ?_, ?_, ?_, ?_, ?_⟩
    · intro e' he'
      rcases List.mem_append.mp he' with he | he
      · exact hinv e' he
      · have he3 := List.mem_singleton.mp he
        subst he3
        constructor
        · constructor
          · intro hL; exact ExposureStatus.noConfusion hL
          · rintro ⟨r, hr, hre, -⟩
            have hre2 : refsExposure r db.next_id = true := hre
            rw [refsExposure_false_of_below r db.next_id (hf3 r hr)] at hre2
            exact (Bool.false_ne_true hre2).elim
        · constructor
          · intro hL; exact ExposureStatus.noConfusion hL
          · rintro ⟨⟨r, hr, hre, -⟩, -⟩
            have hre2 : refsExposure r db.next_id = true := hre
            rw [refsExposure_false_of_below r db.next_id (hf3 r hr)] at hre2
            exact (Bool.false_ne_true hre2).elim
    · intro e' he'
      rcases List.mem_append.mp he' with he | he
      · exact hamo e' he
      · have he3 := List.mem_singleton.mp he
        subst he3
        have h0 : List.countP (fun r => refsExposure r db.next_id && nonTerminal r)
            db.requests ≤ 1 := by
          have hz : List.countP (fun r => refsExposure r db.next_id && nonTerminal r)
              db.requests = 0 := by
            rw [List.countP_eq_zero]
            intro r hr hc
            rw [Bool.and_eq_true] at hc
            have hre2 := hc.1
            rw [refsExposure_false_of_below r db.next_id (hf3 r hr)] at hre2
            exact Bool.false_ne_true hre2
          rw [hz]
          exact Nat.zero_le 1
        exact h0
    · exact hnd
    · intro e' he'
      rcases List.mem_append.mp he' with he | he
      · exact Nat.lt_succ_of_lt (hf1 e' he)
      · have he3 := List.mem_singleton.mp he
        subst he3
        exact Nat.lt_succ_self _
    · intro r hr
      exact Nat.lt_succ_of_lt (hf2 r hr)
    · intro r hr
      exact optBelow_succ _ _ (hf3 r hr)

/-- Folding scan steps over any list of findings preserves the invariant. -/
theorem foldl_scanStep_inv (uid now : Nat) (findings : List Finding) :
    ∀ db : DB, Inv db → Inv (findings.foldl (scanStep uid now) db) := by
  induction findings with
  | nil => intro db h; exact h
  | cons f t ih =>
    intro db h
    rw [List.foldl_cons]
    exact ih _ (scanStep_inv db h uid now f)

/-- `scan` preserves the store invariant. -/
theorem scan_preserves_inv (db : DB) (h : Inv db) (uid : Nat)
    (findings : List Finding) (now : Nat) (db2 : DB)
    (hok : scan db uid findings now = Except.ok db2) : Inv db2 := by
  rw [scan.eq_def] at hok
  cases hfp : db.profiles.find? (fun p => p.user_id == uid) with
  | none => simp only [hfp] at hok; exact Except.noConfusion hok
  | some p =>
    simp only [hfp] at hok
    by_cases hn : (hasName p.first_name && hasName p.last_name) = true
    · rw [if_pos hn] at hok
      rw [Except.ok.injEq] at hok
      subst hok
      exact foldl_scanStep_inv uid now findings db h
    · rw [if_neg hn] at hok; exact Except.noConfusion hok

/-- C1 amended: over every state satisfying the store invariant — every
exposure is `pending_removal` iff a non-terminal request references it, and
`removed` iff a completed request references it and no non-terminal one does
— all four workflow operations preserve the invariant; moreover
`createRequest` advances the target exposure to `pending_removal` and
`completeRequest` advances the linked exposure to `removed`.  (The `removed`
clause is weaker than the spec's plain "iff a completed request references
it" because re-requesting removal after a completed cycle returns the
exposure to `pending_removal` while the completed request row remains.) -/
theorem exposure_request_lifecycle_inv (db : DB) (h : Inv db) :
    (∀ uid eid rt now db2, createRequest db uid eid rt now = Except.ok db2 →
      Inv db2 ∧ ∀ e ∈ db2.exposures, e.id = eid →
        e.status = ExposureStatus.pending_removal) ∧
    (∀ rid now db2, submitRequest db rid now = Except.ok db2 → Inv db2) ∧
    (∀ rid now db2, completeRequest db rid now = Except.ok db2 →
      Inv db2 ∧ ∀ r ∈ db.requests, r.id = rid →
        ∀ e ∈ db2.exposures, r.exposure_id = some e.id →
          e.status = ExposureStatus.removed) ∧
    (∀ uid findings now db2, scan db uid findings now = Except.ok db2 → Inv db2) :=
  ⟨fun uid eid rt now db2 hok => createRequest_preserves_inv db h uid eid rt now db2 hok,
   fun rid now db2 hok => submitRequest_preserves_inv db h rid now db2 hok,
   fun rid now db2 hok => completeRequest_preserves_inv db h rid now db2 hok,
   fun uid findings now db2 hok => scan_preserves_inv db h uid findings now db2 hok⟩

/-- A store holding one `found` exposure of user 7 on broker 2, no requests
yet. -/
def foundDb : DB :=
  { exposures := [{ id := 1, user_id := 7, broker_id := 2,
                    status := ExposureStatus.found, profile_url := none,
                    first_detected_at := 0 }],
    requests := [],
    brokers := [{ id := 2, opt_out_url := none, opt_out_instructions := none,
                  requires_manual_action := false, processing_days := 7 }],
    alerts := [], profiles := [], next_id := 4 }

/-- C1 witness: creating a removal request on the `found` exposure of
`foundDb` keeps the invariant and moves the exposure to `pending_removal`. -/
theorem exposure_request_lifecycle_inv_witness :
    Inv (runResult foundDb (createRequest foundDb 7 1 RequestType.opt_out 5)) ∧
    ∀ e ∈ (runResult foundDb (createRequest foundDb 7 1 RequestType.opt_out 5)).exposures,
      e.id = 1 → e.status = ExposureStatus.pending_removal :=
  (exposure_request_lifecycle_inv foundDb (by decide)).1 7 1 RequestType.opt_out 5
    (runResult foundDb (createRequest foundDb 7 1 RequestType.opt_out 5)) rfl

end PrivacyEraser
